import Mathlib

/-!
Verification of the CSV record store in `cookie-manager.js` (the text codec,
value comparator, predicate builder, query executor, mutation executor and the
GitHub-backed facade).  JavaScript strings are modelled as `String`/`List Char`,
JS numbers arising from `parseFloat` as exact decimal values (an integer
mantissa and a power-of-ten exponent; IEEE double rounding is abstracted away —
every claim below depends only on the sign of comparisons of short decimal
literals, where the rounded doubles and the exact values induce the same sign),
`null`/`undefined` as `Option`, and thrown errors as `Except`.
-/

/-- The whitespace characters recognised by the model of `String.prototype.trim`
(the ASCII part of the JS WhiteSpace/LineTerminator sets; the data handled by
the program never contains the exotic Unicode space characters). -/
def jsSpace (c : Char) : Bool :=
  c = ' ' || c = '\t' || c = '\n' || c = '\r' || c = '\x0B' || c = '\x0C'

/-- A string is blank when `s.trim()` is empty, i.e. it is falsy in the
`if (!lines[i].trim()) continue;` guard of the decoder loops. -/
def isBlank (s : String) : Bool :=
  s.toList.all jsSpace

/-- Model of `str.split(sep)` for a one-character separator: JS `split` never
returns an empty array — splitting the empty string yields `[""]`. -/
def splitOnCharAux (sep : Char) : List Char → List (List Char)
  | [] => [[]]
  | c :: rest =>
    match splitOnCharAux sep rest with
    | [] => [[]]
    | h :: t => if c = sep then [] :: h :: t else (c :: h) :: t

/-- Model of `csvContent.split('\n')` (specialised to any separator). -/
def splitOnChar (sep : Char) (s : String) : List String :=
  (splitOnCharAux sep s.toList).map (fun l => String.mk l)

/-- The `lines` array of `csvDataFetcher.fetch` / `csvModifyHandler.execute`:
`csvContent.split('\n')`. -/
def splitLines (s : String) : List String :=
  splitOnChar '\n' s

/-- Model of `arr.join(sep)`. -/
def joinSep (sep : String) : List String → String
  | [] => ""
  | [x] => x
  | x :: y :: rest => x ++ sep ++ joinSep sep (y :: rest)

/-- One pass of `field.replace(/\\t/g, t)` for a single target character `t`:
each backslash immediately followed by `t` is replaced by `t` alone, scanning
left to right without overlap (the semantics of a global regex replace). -/
def replaceBsl (t : Char) : List Char → List Char
  | [] => []
  | [c] => [c]
  | c1 :: c2 :: rest =>
    if c1 = '\\' && c2 = t then c2 :: replaceBsl t rest
    else c1 :: replaceBsl t (c2 :: rest)

/-- `CsvUtils.unescapeField`: `field.replace(/\\"/g, '"').replace(/\\,/g, ',')`. -/
def unescapeField (s : String) : String :=
  String.mk (replaceBsl ',' (replaceBsl '"' s.toList))

/-- Double every quote character, the `field.replace(/"/g, '""')` step of
`CsvUtils.escapeCsvField`. -/
def doubleQuotes : List Char → List Char
  | [] => []
  | c :: rest =>
    if c = '"' then '"' :: '"' :: doubleQuotes rest else c :: doubleQuotes rest

/-- `CsvUtils.escapeCsvField` on a string field (the `null → ''` and
`String(field)` coercions happen before this point in the model): wrap in
quotes, doubling internal quotes, iff the field contains a comma, quote or
newline. -/
def escapeCsvField (s : String) : String :=
  if s.toList.any (fun c => c = ',' || c = '"' || c = '\n') then
    String.mk ('"' :: doubleQuotes s.toList ++ ['"'])
  else
    s

/-- The character loop of `CsvUtils.parseCsvLine`: `q` is `inQuotes`, `cur` the
accumulated `current` field.  Returns the raw fields; `parseCsvLine` applies
`unescapeField` to each, exactly as the JS pushes
`CsvUtils.unescapeField(current)`. -/
def parseCsvLineAux : Bool → List Char → List Char → List (List Char)
  | _, cur, [] => [cur]
  | true, cur, c :: rest =>
    if c = '"' then
      match rest with
      | c2 :: rest2 =>
        if c2 = '"' then parseCsvLineAux true (cur ++ ['"']) rest2
        else parseCsvLineAux false cur (c2 :: rest2)
      | [] => parseCsvLineAux false cur []
    else parseCsvLineAux true (cur ++ [c]) rest
  | false, cur, c :: rest =>
    if c = '"' then parseCsvLineAux true cur rest
    else if c = ',' then cur :: parseCsvLineAux false [] rest
    else parseCsvLineAux false (cur ++ [c]) rest

/-- `CsvUtils.parseCsvLine`. -/
def parseCsvLine (line : String) : List String :=
  (parseCsvLineAux false [] line.toList).map (fun f => unescapeField (String.mk f))

/-- A JS number produced by `parseFloat`, kept exact: `finite m e` stands for
the decimal value `m * 10 ^ e`.  IEEE double rounding is abstracted away; only
the sign of differences of such values is ever consumed by the program. -/
inductive JsNum
  | finite (mant : Int) (exp10 : Int)
  | posInf
  | negInf
deriving DecidableEq, Repr

/-- Digit-run reader used by the `parseFloat` model and by the natural-order
comparison: consumes leading decimal digits, accumulating their value. -/
def takeNum : List Char → Nat → Nat × List Char
  | [], acc => (acc, [])
  | c :: rest, acc =>
    if c.isDigit then takeNum rest (acc * 10 + (c.toNat - 48)) else (acc, c :: rest)

/-- The digits consumed by `takeNum`, needed for the length of a fraction part. -/
def countDigits : List Char → Nat
  | [] => 0
  | c :: rest => if c.isDigit then countDigits rest + 1 else 0

/-- Leading-sign reader of the `parseFloat` grammar: `(sign, rest)` with
`sign = -1` for a consumed `-`, else `1`. -/
def readSign : List Char → Int × List Char
  | '-' :: rest => (-1, rest)
  | '+' :: rest => (1, rest)
  | l => (1, l)

/-- Drop the leading digit run (the characters `takeNum` consumed). -/
def dropDigits : List Char → List Char
  | [] => []
  | c :: rest => if c.isDigit then dropDigits rest else c :: rest

/-- Exponent clause of the `parseFloat` grammar: `[eE][+-]?digits`.  When the
clause is malformed (no digit after the `e` and optional sign) `parseFloat`
stops before the `e`, which leaves the value unchanged — modelled as
exponent `0`. -/
def readExp10 : List Char → Int
  | c :: rest =>
    if c = 'e' || c = 'E' then
      let (s, rest2) := readSign rest
      match rest2 with
      | d :: _ =>
        if d.isDigit then s * Int.ofNat (takeNum rest2 0).1 else 0
      | [] => 0
    else 0
  | [] => 0

/-- Whether `l` starts with the characters of `p` (used for the literal
`Infinity` clause of `parseFloat`). -/
def startsWithChars : List Char → List Char → Bool
  | [], _ => true
  | _ :: _, [] => false
  | p :: ps, c :: cs => p = c && startsWithChars ps cs

/-- Model of JS `parseFloat`: skip leading whitespace, optional sign, then
either literal `Infinity` or `digits [. digits] [exponent]`; the longest valid
numeric prefix is converted and the rest of the string is ignored; `none`
models the `NaN` result when no prefix parses. -/
def parseJsFloat (s : String) : Option JsNum :=
  let l := s.toList.dropWhile jsSpace
  let (sign, l1) := readSign l
  if startsWithChars "Infinity".toList l1 then
    some (if sign = 1 then JsNum.posInf else JsNum.negInf)
  else
    let (ip, l2) := takeNum l1 0
    let ipLen := countDigits l1
    match l2 with
    | '.' :: l3 =>
      let (fp, _) := takeNum l3 0
      let fpLen := countDigits l3
      if ipLen = 0 && fpLen = 0 then none
      else
        let mant : Int := sign * (Int.ofNat ip * Int.ofNat (10 ^ fpLen) + Int.ofNat fp)
        some (JsNum.finite mant (readExp10 (dropDigits l3) - Int.ofNat fpLen))
    | _ =>
      if ipLen = 0 then none
      else some (JsNum.finite (sign * Int.ofNat ip) (readExp10 l2))

/-- Sign of the comparison of two exact decimals `m1 * 10 ^ e1` and
`m2 * 10 ^ e2`. -/
def cmpDecimal (m1 : Int) (e1 : Int) (m2 : Int) (e2 : Int) : Int :=
  let a := m1 * Int.ofNat (10 ^ (e1 - min e1 e2).toNat)
  let b := m2 * Int.ofNat (10 ^ (e2 - min e1 e2).toNat)
  if a < b then -1 else if b < a then 1 else 0

/-- Sign of the JS subtraction `numA - numB` of two `parseFloat` results:
`none` models the `NaN` outcome `±Infinity - ±Infinity` of like signs. -/
def jsNumSubSign : JsNum → JsNum → Option Int
  | JsNum.finite m1 e1, JsNum.finite m2 e2 => some (cmpDecimal m1 e1 m2 e2)
  | JsNum.posInf, JsNum.posInf => none
  | JsNum.negInf, JsNum.negInf => none
  | JsNum.posInf, _ => some 1
  | JsNum.negInf, _ => some (-1)
  | _, JsNum.posInf => some (-1)
  | _, JsNum.negInf => some 1

/-- Fuel-driven core of the natural-order string comparison (the model of
`a.localeCompare(b, undefined, {numeric: true})`): maximal digit runs compare
by numeric value, other characters by code point.  The fuel is a totality
device only; `natOrderCmp` always supplies enough of it, since every step
consumes at least one character of one input. -/
def natOrderCmpFuel : Nat → List Char → List Char → Int
  | 0, _, _ => 0
  | _ + 1, [], [] => 0
  | _ + 1, [], _ :: _ => -1
  | _ + 1, _ :: _, [] => 1
  | fuel + 1, a@(x :: xs), b@(y :: ys) =>
    if x.isDigit && y.isDigit then
      let (nx, ra) := takeNum a 0
      let (ny, rb) := takeNum b 0
      if nx < ny then -1
      else if ny < nx then 1
      else natOrderCmpFuel fuel ra rb
    else if x = y then natOrderCmpFuel fuel xs ys
    else if x.toNat < y.toNat then -1 else 1

/-- Natural-order string comparison: the model of the collator
`localeCompare(b, undefined, {numeric: true})` on the code-point alphabet
(locale tailoring of letter order is outside the model; every value the
claims exercise is ASCII, where the default collator and code-point order
agree on the compared positions). -/
def natOrderCmp (a b : List Char) : Int :=
  natOrderCmpFuel (a.length + b.length + 1) a b

/-- `CsvUtils.compareValue`: numeric comparison whenever both `parseFloat`
results are non-`NaN`, otherwise the natural-order string comparison.  The
result is the sign of the JS number the source returns (`none` for a `NaN`
result, which every caller treats as `0` or as a failed test). -/
def compareValue (a b : String) : Option Int :=
  match parseJsFloat a, parseJsFloat b with
  | some x, some y => jsNumSubSign x y
  | _, _ => some (natOrderCmp a.toList b.toList)

/-- A JS record (row object): field names mapped to string values in insertion
order.  Keys are unique for every object the program builds; `none` from
`objGet` models both a missing property (`undefined`) and is the only absence
the predicates distinguish (`null` and `undefined` are treated alike by every
predicate of `csvDataFilter`). -/
abbrev Obj : Type := List (String × String)

/-- Property read `row[field]`. -/
def objGet (o : Obj) (k : String) : Option String :=
  (List.find? (fun p => p.1 = k) o).map (fun p => p.2)

/-- Property write `row[field] = v` with JS object semantics: an existing key
keeps its position and gets the new value, a fresh key is appended. -/
def objSet (o : Obj) (k : String) (v : String) : Obj :=
  if o.any (fun p => p.1 = k) then
    o.map (fun p => if p.1 = k then (k, v) else p)
  else
    o ++ [(k, v)]

/-- The row-building loop `headers.forEach((header, index) =>
row[header] = values[index] || '')` of both decoders, walking headers and
values in step (`values[index] || ''` reads the i-th value, empty when the
line is short — a parsed `''` and a missing entry coincide). -/
def buildRowAux (row : Obj) : List String → List String → Obj
  | [], _ => row
  | h :: hs, vs => buildRowAux (objSet row h (vs.headD "")) hs vs.tail

/-- The record object a decoder builds from a header list and the parsed
values of one line. -/
def buildRow (headers values : List String) : Obj :=
  buildRowAux [] headers values

/-- `csvModifyHandler.prepareRecord`: `headers.map(header => row[header] ?? '')`. -/
def prepareRecord (headers : List String) (row : Obj) : List String :=
  headers.map (fun h => (objGet row h).getD "")

/-- The predicate `csvDataFilter.eq` pushes for `(fieldName, value)`:
`strValue` is `value` after the `null/undefined → null, else String(value)`
coercion, so the argument is modelled as an `Option String` directly. -/
def eqPred (field : String) (value : Option String) (row : Obj) : Bool :=
  match objGet row field, value with
  | none, v => v.isNone
  | some _, none => false
  | some x, some s => x = s

/-- The predicate `csvDataFilter.notEq` pushes. -/
def notEqPred (field : String) (value : Option String) (row : Obj) : Bool :=
  match objGet row field, value with
  | none, v => !v.isNone
  | some _, none => true
  | some x, some s => x ≠ s

/-- The predicate `csvDataFilter.inValues` pushes: the set holds the
stringified arguments with `null`/`undefined` collapsed to `null`, and the
row value is checked with `undefined` collapsed to `null` as well. -/
def inPred (field : String) (values : List (Option String)) (row : Obj) : Bool :=
  values.contains (objGet row field)

/-- The predicate `csvDataFilter.notIn` pushes. -/
def notInPred (field : String) (values : List (Option String)) (row : Obj) : Bool :=
  !(values.contains (objGet row field))

/-- Whether a character is refused by the `.` wildcard of a JS regex without
the `s` flag (the LineTerminator set). -/
def isLineTerm (c : Char) : Bool :=
  c = '\n' || c = '\r' || c = ' ' || c = ' '

/-- Fuel-driven matcher for the anchored regex `csvDataFilter.like` builds:
every regex metacharacter of the pattern is backslash-escaped first, then `%`
becomes `.*` and `_` becomes `.`, so semantically `%` matches any run of
non-LineTerminator characters, `_` exactly one such character, and every other
pattern character only itself.  The fuel is a totality device; `likeMatch`
always supplies enough, since every step consumes a pattern or subject
character. -/
def likeMatchFuel : Nat → List Char → List Char → Bool
  | 0, _, _ => false
  | _ + 1, [], s => s.isEmpty
  | fuel + 1, '%' :: ps, s =>
    likeMatchFuel fuel ps s ||
      match s with
      | [] => false
      | c :: cs => !isLineTerm c && likeMatchFuel fuel ('%' :: ps) cs
  | _ + 1, '_' :: _, [] => false
  | fuel + 1, '_' :: ps, c :: cs => !isLineTerm c && likeMatchFuel fuel ps cs
  | _ + 1, _ :: _, [] => false
  | fuel + 1, p :: ps, c :: cs => p = c && likeMatchFuel fuel ps cs

/-- Anchored match of a SQL-like pattern against a subject string. -/
def likeMatch (pattern subject : List Char) : Bool :=
  likeMatchFuel (pattern.length + subject.length + 1) pattern subject

/-- The predicate `csvDataFilter.like` pushes: the row value defaults to the
empty string (`row[fieldName] ?? ''`) before the anchored regex test. -/
def likePred (field : String) (pattern : String) (row : Obj) : Bool :=
  likeMatch pattern.toList ((objGet row field).getD "").toList

/-- `csvDataFilter._cmpHelper`: `false` whenever either side is
`null`/`undefined`, otherwise the tester applied to the sign of
`CsvUtils.compareValue` (a `NaN` comparison outcome fails all four testers
`> 0`, `>= 0`, `< 0`, `<= 0`, hence the `getD false`). -/
def cmpHelper (field : String) (value : Option String) (tester : Int → Bool)
    (row : Obj) : Bool :=
  match objGet row field, value with
  | some x, some s => ((compareValue x s).map tester).getD false
  | _, _ => false

/-- `csvDataFilter.gt`. -/
def gtPred (field : String) (value : Option String) (row : Obj) : Bool :=
  cmpHelper field value (fun c => 0 < c) row

/-- `csvDataFilter.ge`. -/
def gePred (field : String) (value : Option String) (row : Obj) : Bool :=
  cmpHelper field value (fun c => 0 ≤ c) row

/-- `csvDataFilter.lt`. -/
def ltPred (field : String) (value : Option String) (row : Obj) : Bool :=
  cmpHelper field value (fun c => c < 0) row

/-- `csvDataFilter.le`. -/
def lePred (field : String) (value : Option String) (row : Obj) : Bool :=
  cmpHelper field value (fun c => c ≤ 0) row

/-- `csvDataFilter.test`: the conjunction of the accumulated predicates. -/
def filterTest (preds : List (Obj → Bool)) (row : Obj) : Bool :=
  preds.all (fun p => p row)

/-- The handler record of `csvDataFetcher`: `selectFrom` overrides
`shouldHandleData`/`selectField` and the fluent builders override the rest.
`lineLimit = none` models the unoverridden default `Number.MAX_VALUE` (a slice
end beyond any array length); offsets and limits reaching the handler are
non-negative, `selectFrom.offset/limit` having rejected negative arguments. -/
structure FetchHandler where
  shouldHandleData : Obj → Bool
  lineOffset : Nat := 0
  lineLimit : Option Nat := none
  orderField : Option String := none
  orderDesc : Bool := false
  selectField : Option (List String) := none

/-- The comparator closure `fetch` hands to `records.sort`: the sign of
`CsvUtils.compareValue` on the order field's values, negated for descending
order; a `NaN` comparator result counts as `0` (the SortCompare clause of the
JS specification).  Rows built by the decoder carry every header field, so the
`getD ""` default is never consulted on them (on a row missing the field the
source would throw from `localeCompare` instead). -/
def sortComparator (desc : Bool) (field : String) (a b : Obj) : Int :=
  let c := (compareValue ((objGet a field).getD "") ((objGet b field).getD "")).getD 0
  if desc then -c else c

/-- Stable insertion into a sorted list: the element goes before the first
entry it does not compare strictly after. -/
def jsInsert (le : Obj → Obj → Bool) (x : Obj) : List Obj → List Obj
  | [] => [x]
  | y :: ys => if le x y then x :: y :: ys else y :: jsInsert le x ys

/-- Model of `records.sort(comparator)`: a stable sort (mandated by the JS
specification; for a consistent comparator every stable sort returns the same
list, so the choice of insertion sort is immaterial). -/
def jsSort (le : Obj → Obj → Bool) : List Obj → List Obj
  | [] => []
  | x :: xs => jsInsert le x (jsSort le xs)

/-- Projection loop of `fetch`: `selectFields.forEach(field =>
newRow[field] = row[field])` (copying an absent field writes `undefined`,
which the model renders as leaving the field absent; no claim touches
projection). -/
def projectRow (fields : List String) (row : Obj) : Obj :=
  fields.foldl
    (fun nr f =>
      match objGet row f with
      | some v => objSet nr f v
      | none => nr)
    []

/-- Model of `arr.slice(start, end)` for non-negative bounds. -/
def jsSlice (start : Nat) (stop : Option Nat) (l : List Obj) : List Obj :=
  match stop with
  | none => l.drop start
  | some e => (l.take e).drop start

/-- `csvDataFetcher.fetch`: split into lines, parse the header, build and
filter the records of the non-blank data lines, sort when an order field is
set, slice `[lineOffset, lineOffset + lineLimit)` and project.  The only
throw (`csv must contains header`) guards `lines.length === 0`. -/
def csvFetch (h : FetchHandler) (csvContent : String) : Except String (List Obj) :=
  match splitLines csvContent with
  | [] => Except.error "csv must contains header"
  | headerLine :: dataPart =>
    let headers := parseCsvLine headerLine
    let records :=
      ((dataPart.filter (fun l => !isBlank l)).map
        (fun l => buildRow headers (parseCsvLine l))).filter h.shouldHandleData
    let sorted :=
      match h.orderField with
      | none => records
      | some f =>
        jsSort (fun a b => decide (sortComparator h.orderDesc f a b ≤ 0)) records
    let sliced :=
      jsSlice h.lineOffset (h.lineLimit.map (fun m => h.lineOffset + m)) sorted
    match h.selectField with
    | none => Except.ok sliced
    | some fields => Except.ok (sliced.map (projectRow fields))

/-- `selectFrom(...).offset(o)`: throws `Offset cannot be negative` for a
negative argument, otherwise installs the offset. -/
def selectOffset (o : Int) : Except String Nat :=
  if o < 0 then Except.error "Offset cannot be negative" else Except.ok o.toNat

/-- `selectFrom(...).limit(l)`: throws `Limit cannot be negative` for a
negative argument, otherwise installs the limit. -/
def selectLimit (l : Int) : Except String Nat :=
  if l < 0 then Except.error "Limit cannot be negative" else Except.ok l.toNat

/-- One serialized record row of `csvModifyHandler.execute`:
`values.map(v => CsvUtils.escapeCsvField(v)).join(',')`. -/
def renderLine (values : List String) : String :=
  joinSep "," (values.map escapeCsvField)

/-- The handler record of `csvModifyHandler`, as the four mutation builders of
`csvDb` override it: `handleData` returning `none` models the `null` tombstone
that drops the row. -/
structure ModifyHandler where
  shouldHandleData : Obj → Bool
  handleData : Obj → Option Obj
  appendRows : List Obj

/-- The data-line loop of `csvModifyHandler.execute`: blank lines are skipped;
a row passing `shouldHandleData` is counted and replaced by
`prepareRecord(headers, handleData(row))` (dropped on the `null` tombstone);
any other row contributes its raw parsed `values` array unchanged.  Returns
the `records` array and `affectedCount` before the appends. -/
def modifyScan (h : ModifyHandler) (headers : List String) :
    List String → List (List String) × Nat
  | [] => ([], 0)
  | line :: rest =>
    let (recs, cnt) := modifyScan h headers rest
    if isBlank line then (recs, cnt)
    else
      let values := parseCsvLine line
      let row := buildRow headers values
      if h.shouldHandleData row then
        match h.handleData row with
        | some newRow => (prepareRecord headers newRow :: recs, cnt + 1)
        | none => (recs, cnt + 1)
      else (values :: recs, cnt)

/-- The full `records` array of `csvModifyHandler.execute`: the scanned rows
followed by `prepareRecord(headers, row)` for every append row. -/
def modifyRecords (h : ModifyHandler) (headers : List String)
    (dataPart : List String) : List (List String) :=
  (modifyScan h headers dataPart).1 ++ h.appendRows.map (prepareRecord headers)

/-- `csvModifyHandler.execute`: parse, scan, append, then re-serialize the
header (joined verbatim) and every record row (fields escaped) newline-joined;
returns `{affectedCount, csvContent}`.  The only throw guards
`lines.length === 0`. -/
def modifyExecute (h : ModifyHandler) (csvContent : String) :
    Except String (Nat × String) :=
  match splitLines csvContent with
  | [] => Except.error "csv must contains header"
  | headerLine :: dataPart =>
    let headers := parseCsvLine headerLine
    let recs := modifyRecords h headers dataPart
    let cnt := (modifyScan h headers dataPart).2 + h.appendRows.length
    let newCsv :=
      joinSep "\n" (joinSep "," headers :: recs.map renderLine)
    Except.ok (cnt, newCsv)

/-- The handler `csvDb.updateBy(csvFileName, fieldName)` installs, with the
accumulated `updateDatas` map as an association list (its keys are unique,
`value()` overwriting an existing key): process a row iff its key-field value
is a key of the map, and replace it by the entire stored record. -/
def updateByHandler (keyField : String) (m : List (String × Obj)) : ModifyHandler where
  shouldHandleData row :=
    match objGet row keyField with
    | none => false
    | some k => ((m.find? (fun p => p.1 = k)).map (fun p => p.2)).isSome
  handleData row :=
    match objGet row keyField with
    | none => none
    | some k => (m.find? (fun p => p.1 = k)).map (fun p => p.2)
  appendRows := []

/-- The handler `csvDb.insertInto` installs: no row is processed in place and
the accumulated `value()` rows are appended. -/
def insertHandler (rows : List Obj) : ModifyHandler where
  shouldHandleData _ := false
  handleData row := some row
  appendRows := rows

/-- The handler `csvDb.deleteFrom` installs: rows matching the filter are
tombstoned. -/
def deleteHandler (preds : List (Obj → Bool)) : ModifyHandler where
  shouldHandleData row := filterTest preds row
  handleData _ := none
  appendRows := []

/-- The handler `csvDb.update` installs: rows matching the filter get each
assignment written into them (`set` coerces its argument, so an assignment
value is always a string by the time it is stored). -/
def updateHandler (preds : List (Obj → Bool)) (assignments : List (String × String)) :
    ModifyHandler where
  shouldHandleData row := filterTest preds row
  handleData row := some (assignments.foldl (fun r a => objSet r a.1 a.2) row)
  appendRows := []

/-- The remote versioned blob store behind one table path: the GitHub contents
object's bytes and its version token (the `sha`, abstracted to a counter that
changes on every successful write). -/
structure BlobStore where
  content : String
  version : Nat
deriving DecidableEq, Repr

/-- The three awaited suspension points of one mutating facade operation
(`csvDb.update/updateBy/deleteFrom/insertInto → execute`), in program order:
`getFileContent(path)` (whose `sha` is discarded), the computation of the new
body, then `updateFile(path, newCsv)` which probes `getFileInfo(path)` afresh
and performs the conditional write with that freshly probed `sha`. -/
inductive MutPhase
  | start
  | haveContent (body : String)
  | haveSha (newBody : String) (sha : Nat)
  | finished (ok : Bool)
deriving DecidableEq, Repr

/-- One suspension-to-suspension step of a mutating operation whose pure
read-to-write body transformation is `transform` (the matching executor):
the initial read takes the bytes only; the probe inside `updateFile` takes the
store's CURRENT version, not the one the read observed; the write succeeds iff
that probed version is still current. -/
def mutStep (transform : String → String) :
    MutPhase → BlobStore → MutPhase × BlobStore
  | MutPhase.start, s => (MutPhase.haveContent s.content, s)
  | MutPhase.haveContent body, s => (MutPhase.haveSha (transform body) s.version, s)
  | MutPhase.haveSha newBody sha, s =>
    if sha = s.version then
      (MutPhase.finished true, { content := newBody, version := s.version + 1 })
    else
      (MutPhase.finished false, s)
  | MutPhase.finished ok, s => (MutPhase.finished ok, s)

/-- Two mutating operations racing on the same table: the phases of clients A
and B and the shared store. -/
structure RaceState where
  pa : MutPhase
  pb : MutPhase
  store : BlobStore
deriving DecidableEq, Repr

/-- Run one step of client A (`true`) or client B (`false`). -/
def raceStep (fA fB : String → String) (st : RaceState) (pickA : Bool) : RaceState :=
  if pickA then
    let (p, s) := mutStep fA st.pa st.store
    { st with pa := p, store := s }
  else
    let (p, s) := mutStep fB st.pb st.store
    { st with pb := p, store := s }

/-- Run a whole interleaving schedule. -/
def raceRun (fA fB : String → String) (sched : List Bool) (st : RaceState) : RaceState :=
  sched.foldl (raceStep fA fB) st

/-- Absence of the two escape digraphs `\"` and `\,` that
`CsvUtils.unescapeField` rewrites: on such text the decoder's un-escape pass
is the identity. -/
def noBslEsc : List Char → Bool
  | [] => true
  | [_] => true
  | c1 :: c2 :: rest =>
    !(c1 = '\\' && (c2 = '"' || c2 = ',')) && noBslEsc (c2 :: rest)

/-- The canonical encoder of a table: the exact serialization
`csvModifyHandler.execute` emits (header names joined verbatim, each record
row rendered through `escapeCsvField`), also the body `csvDb.create` writes
for an empty table. -/
def encodeCsv (headers : List String) (records : List (List String)) : String :=
  joinSep "\n" (joinSep "," headers :: records.map renderLine)

/-- A fetch handler whose filter passes everything and that leaves every
builder default in place — the decoder by itself. -/
def passHandler : FetchHandler where
  shouldHandleData _ := true

/-- The header list a decoder reads from a body (`splitLines` is never empty,
so `headD` meets the real first line). -/
def csvHeaders (csv : String) : List String :=
  parseCsvLine ((splitLines csv).headD "")

/-- The record objects a decoder builds from a body before any filtering:
one per non-blank data line. -/
def tableRows (csv : String) : List Obj :=
  ((splitLines csv).tail.filter (fun l => !isBlank l)).map
    (fun l => buildRow (csvHeaders csv) (parseCsvLine l))

/-- Specification-side row transform of `updateBy`, written from the spec's
words for comparison with the executed handler: a row whose key-field value is
a key of the map is replaced by the entire stored replacement record
(serialized header-ordered, missing fields as empty string); any other row
keeps its originally parsed raw values; nothing else is produced. -/
def updateBySpecRow (headers : List String) (keyField : String)
    (m : List (String × Obj)) (line : String) : List String :=
  match objGet (buildRow headers (parseCsvLine line)) keyField with
  | none => parseCsvLine line
  | some k =>
    match (m.find? (fun p => p.1 = k)).map (fun p => p.2) with
    | some repl => prepareRecord headers repl
    | none => parseCsvLine line

lemma splitOnCharAux_ne_nil (sep : Char) (l : List Char) :
    splitOnCharAux sep l ≠ [] := by
  cases l with
  | nil => simp [splitOnCharAux]
  | cons c rest =>
    simp only [splitOnCharAux]
    cases splitOnCharAux sep rest with
    | nil => simp
    | cons h t =>
      by_cases hc : c = sep <;> simp [hc]

lemma splitLines_ne_nil (s : String) : splitLines s ≠ [] := by
  simp only [splitLines, splitOnChar]
  intro h
  exact splitOnCharAux_ne_nil '\n' s.toList (List.map_eq_nil_iff.mp h)

/-- C9: the version token handed to the conditional write of every mutating
facade operation is the one `updateFile`'s own `getFileInfo` probe reads at
write time, not the one the operation's initial read observed; consequently
the interleaving read-A, read-B, probe-A, write-A, probe-B, write-B of two
operations on one table lets both writes succeed while the second silently
discards the first's change (the lost update): client B read the table at
version 0, wrote with the freshly probed token 1, and the final body is B's
transform of the ORIGINAL body, not of A's result. -/
theorem c9_lost_update :
    (∀ (t : String → String) (s : BlobStore),
      mutStep t MutPhase.start s = (MutPhase.haveContent s.content, s)) ∧
    (∀ (t : String → String) (body : String) (s : BlobStore),
      mutStep t (MutPhase.haveContent body) s =
        (MutPhase.haveSha (t body) s.version, s)) ∧
    ((raceRun (fun b => b ++ "A") (fun b => b ++ "B") [true, false]
        { pa := MutPhase.start, pb := MutPhase.start,
          store := { content := "", version := 0 } }).store.version = 0 ∧
      (raceRun (fun b => b ++ "A") (fun b => b ++ "B") [true, false, true, true, false]
        { pa := MutPhase.start, pb := MutPhase.start,
          store := { content := "", version := 0 } }).pb =
        MutPhase.haveSha "B" 1 ∧
      raceRun (fun b => b ++ "A") (fun b => b ++ "B") [true, false, true, true, false, false]
        { pa := MutPhase.start, pb := MutPhase.start,
          store := { content := "", version := 0 } } =
        { pa := MutPhase.finished true, pb := MutPhase.finished true,
          store := { content := "B", version := 2 } } ∧
      ("" ++ "A" ++ "B" ≠ "B")) := by
  refine ⟨fun t s => rfl, fun t body s => rfl, by decide, by decide, by decide, by decide⟩

/-- C4: for every input string (and any handlers), the query-path decoder
`csvDataFetcher.fetch` and the mutation-path decoder `csvModifyHandler.execute`
fail with the `csv must contains header` FormatError exactly when the input
splits into zero lines — and since `split('\n')` never returns an empty array,
both sides of that equivalence are false on every input: the decoders never
raise the FormatError and the guard is vacuous. -/
theorem c4_header_check (h : FetchHandler) (mh : ModifyHandler) (s : String) :
    ((∃ e, csvFetch h s = Except.error e) ↔ (splitLines s).length = 0) ∧
    ((∃ e, modifyExecute mh s = Except.error e) ↔ (splitLines s).length = 0) ∧
    (splitLines s).length ≠ 0 := by
  obtain ⟨hd, tl, heq⟩ := List.exists_cons_of_ne_nil (splitLines_ne_nil s)
  refine ⟨?_, ?_, by rw [heq]; simp⟩
  · rw [csvFetch.eq_def, heq]
    simp only [List.length_cons]
    constructor
    · rintro ⟨e, he⟩
      cases hsel : h.selectField <;> rw [hsel] at he <;> simp at he
    · omega
  · rw [modifyExecute.eq_def, heq]
    simp only [List.length_cons]
    constructor
    · rintro ⟨e, he⟩
      simp at he
    · omega

/-- C2 fails as stated: for the comparison argument `""` the predicate `eq`
answers `false` on a record lacking the field but `true` on a record carrying
the empty string (and dually for `notEq` with a null argument and for
`in`/`notIn` with a null or empty-string member), so absent and empty-valued
fields are NOT interchangeable under every comparison argument. -/
theorem c2_null_equiv_counterexample :
    (eqPred "f" (some "") [] = false ∧ eqPred "f" (some "") [("f", "")] = true) ∧
    (notEqPred "f" none [] = false ∧ notEqPred "f" none [("f", "")] = true) ∧
    (inPred "f" [none] [] = true ∧ inPred "f" [none] [("f", "")] = false) ∧
    (notInPred "f" [some ""] [] = true ∧ notInPred "f" [some ""] [("f", "")] = false) := by
  decide

/-- C2, amended: absent field and empty-string field behave identically under
`eq`, `notEq`, `in` and `notIn` for every comparison argument that is neither
null nor (after stringification) the empty string — the two records are
distinguishable only by a null or empty-string argument. -/
theorem c2_null_equiv_amended (f : String) (s : String) (hs : s ≠ "")
    (vs : List (Option String))
    (hvs : ∀ v ∈ vs, ∃ t, v = some t ∧ t ≠ "")
    (rowA rowE : Obj) (ha : objGet rowA f = none) (he : objGet rowE f = some "") :
    eqPred f (some s) rowA = eqPred f (some s) rowE ∧
    notEqPred f (some s) rowA = notEqPred f (some s) rowE ∧
    inPred f vs rowA = inPred f vs rowE ∧
    notInPred f vs rowA = notInPred f vs rowE := by
  have hnone : (none : Option String) ∉ vs := by
    intro hmem
    obtain ⟨t, ht, -⟩ := hvs none hmem
    exact Option.noConfusion ht
  have hempty : some "" ∉ vs := by
    intro hmem
    obtain ⟨t, ht, htne⟩ := hvs (some "") hmem
    exact htne (Option.some.inj ht).symm
  refine ⟨?_, ?_, ?_, ?_⟩
  · simp [eqPred, ha, he, Ne.symm hs]
  · simp [notEqPred, ha, he, Ne.symm hs]
  · simp [inPred, ha, he, hnone, hempty]
  · simp [notInPred, ha, he, hnone, hempty]

theorem c2_null_equiv_witness :
    ("x" : String) ≠ "" ∧
    (eqPred "f" (some "x") [] = eqPred "f" (some "x") [("f", "")] ∧
      notEqPred "f" (some "x") [] = notEqPred "f" (some "x") [("f", "")] ∧
      inPred "f" [some "y"] [] = inPred "f" [some "y"] [("f", "")] ∧
      notInPred "f" [some "y"] [] = notInPred "f" [some "y"] [("f", "")]) :=
  ⟨by decide,
    c2_null_equiv_amended "f" "x" (by decide) [some "y"]
      (by
        intro v hv
        rw [List.mem_singleton] at hv
        exact ⟨"y", hv, by decide⟩)
      [] [("f", "")] rfl rfl⟩

/-- C10: the `like` predicate reads the field through `?? ''`, so a record
lacking the field (or holding `null`) matches exactly as a record whose field
is the empty string; in particular `like(field, "%")` accepts a record lacking
the field; the ordering predicates `gt/ge/lt/le` instead return `false`
whenever the field is absent. -/
theorem c10_like_null_equiv (f pat : String) (v : Option String)
    (rowA rowE : Obj) (ha : objGet rowA f = none) (he : objGet rowE f = some "") :
    likePred f pat rowA = likePred f pat rowE ∧
    likePred f "%" rowA = true ∧
    gtPred f v rowA = false ∧ gePred f v rowA = false ∧
    ltPred f v rowA = false ∧ lePred f v rowA = false := by
  refine ⟨?_, ?_, ?_, ?_, ?_, ?_⟩
  · simp [likePred, ha, he]
  · simp only [likePred, ha, Option.getD_none]
    decide
  · simp [gtPred, cmpHelper, ha]
  · simp [gePred, cmpHelper, ha]
  · simp [ltPred, cmpHelper, ha]
  · simp [lePred, cmpHelper, ha]

theorem c10_like_null_equiv_witness :
    likePred "domain" "a%" [("other", "1")] = likePred "domain" "a%" [("domain", "")] ∧
    likePred "domain" "%" [("other", "1")] = true ∧
    gtPred "domain" (some "5") [("other", "1")] = false ∧
    gePred "domain" (some "5") [("other", "1")] = false ∧
    ltPred "domain" (some "5") [("other", "1")] = false ∧
    lePred "domain" (some "5") [("other", "1")] = false :=
  c10_like_null_equiv "domain" "a%" (some "5") [("other", "1")] [("domain", "")]
    rfl rfl

/-- C3 fails as stated: `"10abc"` does not parse fully as a number, yet
`compareValue` compares it numerically — `parseFloat` accepts the numeric
prefix `10`, so `compare("10abc", "10") = 0`, while the natural-order string
rule the claim prescribes for such values separates the two strings. -/
theorem c3_compare_counterexample :
    parseJsFloat "10abc" = some (JsNum.finite 10 0) ∧
    compareValue "10abc" "10" = some 0 ∧
    natOrderCmp "10abc".toList "10".toList = 1 := by
  decide

/-- C3, amended: `compare(a, b)` compares numerically exactly when BOTH values
carry a numeric prefix accepted by `parseFloat` (a value that merely begins
with digits, such as `"10abc"`, is therefore compared numerically through its
prefix, not as a string); only otherwise does the natural-order string rule
apply, under which embedded digit runs compare by numeric value; the spec's
concrete instances `compare("10","9") > 0`, `compare("a10","a2") > 0` and
`compare("b","a") > 0` all hold. -/
theorem c3_compare_dispatch_amended :
    (∀ a b : String, parseJsFloat a = none ∨ parseJsFloat b = none →
      compareValue a b = some (natOrderCmp a.toList b.toList)) ∧
    (∀ (a b : String) (x y : JsNum), parseJsFloat a = some x → parseJsFloat b = some y →
      compareValue a b = jsNumSubSign x y) ∧
    compareValue "10abc" "10" = some 0 ∧
    compareValue "10" "9" = some 1 ∧
    compareValue "a10" "a2" = some 1 ∧
    compareValue "b" "a" = some 1 := by
  refine ⟨?_, ?_, by decide, by decide, by decide, by decide⟩
  · intro a b hor
    rw [compareValue]
    rcases hor with hna | hnb
    · rw [hna]
    · rw [hnb]
      cases parseJsFloat a <;> rfl
  · intro a b x y hx hy
    rw [compareValue, hx, hy]

lemma modifyScan_count (h : ModifyHandler) (headers : List String)
    (lines : List String) :
    (modifyScan h headers lines).2 =
      ((lines.filter (fun l => !isBlank l)).map
        (fun l => buildRow headers (parseCsvLine l))).countP h.shouldHandleData := by
  induction lines with
  | nil => rfl
  | cons line rest ih =>
    simp only [modifyScan]
    by_cases hb : isBlank line
    · simp [hb, ih]
    · simp only [hb, List.filter_cons, Bool.not_false, if_true, List.map_cons,
        List.countP_cons]
      by_cases hs : h.shouldHandleData (buildRow headers (parseCsvLine line))
      · cases hd : h.handleData (buildRow headers (parseCsvLine line)) <;>
          simp [hs, hd, ih]
      · simp [hs, ih]

/-- C5: `affectedCount` returned by the mutation executor equals the number of
decoded data rows satisfying the plan's `shouldHandleData` predicate plus the
number of appended rows — rows dropped by the tombstone and rows replaced
wholesale are counted through the predicate, untouched rows are not. -/
theorem c5_affected_count (h : ModifyHandler) (csv : String) (n : Nat)
    (out : String) (hrun : modifyExecute h csv = Except.ok (n, out)) :
    n = (tableRows csv).countP h.shouldHandleData + h.appendRows.length := by
  obtain ⟨hd, tl, heq⟩ := List.exists_cons_of_ne_nil (splitLines_ne_nil csv)
  rw [modifyExecute.eq_def, heq] at hrun
  simp only [Except.ok.injEq, Prod.mk.injEq] at hrun
  rw [← hrun.1, modifyScan_count]
  have hh : csvHeaders csv = parseCsvLine hd := by
    rw [csvHeaders, heq]
    rfl
  rw [tableRows, heq, hh]
  rfl

theorem c5_affected_count_witness :
    (1 : Nat) =
      (tableRows "a,b\n1,2\n3,4").countP
        (deleteHandler [eqPred "a" (some "1")]).shouldHandleData +
      (deleteHandler [eqPred "a" (some "1")]).appendRows.length :=
  c5_affected_count (deleteHandler [eqPred "a" (some "1")]) "a,b\n1,2\n3,4" 1
    "a,b\n3,4" (by rfl)

lemma prepareRecord_length (headers : List String) (row : Obj) :
    (prepareRecord headers row).length = headers.length := by
  simp [prepareRecord]

/-- C8 fails as stated: a data line shorter than the header that no plan
processes is passed through verbatim, so the serialized output contains a
record row with fewer fields than the header — here the untouched row `x`
keeps one field under the two-field header `a,b` instead of being emitted as
`x,` with an empty second field. -/
theorem c8_serialization_counterexample :
    modifyExecute (insertHandler []) "a,b\nx" = Except.ok (0, "a,b\nx") ∧
    (parseCsvLine "a,b").length = 2 ∧
    (parseCsvLine "x").length = 1 := by
  exact ⟨rfl, by decide, by decide⟩

/-- C8, amended: every record row the mutation transformed or appended is
serialized through `prepareRecord` and therefore carries exactly one value per
header field, a missing field becoming the empty string; a row the plan passed
through untouched is re-emitted from its originally parsed raw values and may
expose fewer (or more) fields than the header. -/
theorem c8_serialization_amended (h : ModifyHandler) (headers : List String)
    (lines : List String) :
    (∀ row, (prepareRecord headers row).length = headers.length ∧
      ∀ i, i < headers.length →
        (prepareRecord headers row)[i]? =
          some ((objGet row (headers.getD i "")).getD "")) ∧
    (∀ rec ∈ modifyRecords h headers lines,
      rec.length = headers.length ∨
      ∃ line ∈ lines, isBlank line = false ∧ rec = parseCsvLine line ∧
        h.shouldHandleData (buildRow headers (parseCsvLine line)) = false) := by
  constructor
  · intro row
    refine ⟨prepareRecord_length headers row, ?_⟩
    intro i hi
    rw [prepareRecord, List.getElem?_map]
    rw [List.getElem?_eq_getElem hi]
    simp [List.getD, List.getElem?_eq_getElem hi]
  · intro rec hrec
    rw [modifyRecords, List.mem_append] at hrec
    rcases hrec with hscan | happ
    · induction lines with
      | nil => simp [modifyScan] at hscan
      | cons line rest ih =>
        simp only [modifyScan] at hscan
        by_cases hb : isBlank line
        · rw [if_pos hb] at hscan
          rcases ih hscan with hl | ⟨l, hml, hrest⟩
          · exact Or.inl hl
          · exact Or.inr ⟨l, List.mem_cons_of_mem _ hml, hrest⟩
        · rw [if_neg hb] at hscan
          by_cases hs : h.shouldHandleData (buildRow headers (parseCsvLine line))
          · rw [if_pos hs] at hscan
            cases hd : h.handleData (buildRow headers (parseCsvLine line)) with
            | none =>
              rw [hd] at hscan
              rcases ih hscan with hl | ⟨l, hml, hrest⟩
              · exact Or.inl hl
              · exact Or.inr ⟨l, List.mem_cons_of_mem _ hml, hrest⟩
            | some newRow =>
              rw [hd] at hscan
              rcases List.mem_cons.mp hscan with hhead | htail
              · exact Or.inl (hhead ▸ prepareRecord_length headers newRow)
              · rcases ih htail with hl | ⟨l, hml, hrest⟩
                · exact Or.inl hl
                · exact Or.inr ⟨l, List.mem_cons_of_mem _ hml, hrest⟩
          · rw [if_neg hs] at hscan
            rcases List.mem_cons.mp hscan with hhead | htail
            · exact Or.inr ⟨line, List.mem_cons_self line rest,
                Bool.not_eq_true _ ▸ (by simpa using hb), hhead, by simpa using hs⟩
            · rcases ih htail with hl | ⟨l, hml, hrest⟩
              · exact Or.inl hl
              · exact Or.inr ⟨l, List.mem_cons_of_mem _ hml, hrest⟩
    · obtain ⟨row, -, hrow⟩ := List.mem_map.mp happ
      exact Or.inl (hrow ▸ prepareRecord_length headers row)

/-- C7: the mutation the `updateBy` handler performs is exactly the per-line
specification map `updateBySpecRow`: every non-blank row whose key-field value
is a key of the replacement map becomes the entire stored replacement record
(header-ordered, independent of the pre-existing row — full replacement, not a
merge), every other row keeps its originally parsed raw values, and the
handler appends nothing, so keys of the map matching no row produce no new
row (the output has exactly one row per non-blank input line). -/
theorem c7_update_by (kf : String) (m : List (String × Obj)) (headers : List String)
    (lines : List String) :
    modifyRecords (updateByHandler kf m) headers lines =
      (lines.filter (fun l => !isBlank l)).map
        (fun l => updateBySpecRow headers kf m l) ∧
    (modifyRecords (updateByHandler kf m) headers lines).length =
      (lines.filter (fun l => !isBlank l)).length := by
  have hmain : modifyRecords (updateByHandler kf m) headers lines =
      (lines.filter (fun l => !isBlank l)).map
        (fun l => updateBySpecRow headers kf m l) := by
    rw [modifyRecords]
    have happ : (updateByHandler kf m).appendRows = [] := rfl
    rw [happ, List.map_nil, List.append_nil]
    induction lines with
    | nil => rfl
    | cons line rest ih =>
      simp only [modifyScan]
      by_cases hb : isBlank line
      · simp [hb, ih]
      · simp only [hb, if_false, List.filter_cons, Bool.not_false, if_true,
          List.map_cons]
        cases hg : objGet (buildRow headers (parseCsvLine line)) kf with
        | none =>
          have hs : (updateByHandler kf m).shouldHandleData
              (buildRow headers (parseCsvLine line)) = false := by
            simp only [updateByHandler, hg]
          have hspec : updateBySpecRow headers kf m line = parseCsvLine line := by
            simp only [updateBySpecRow, hg]
          simp only [hs, Bool.false_eq_true, if_false, hspec, ih]
        | some k =>
          cases hf : (m.find? (fun p => p.1 = k)).map (fun p => p.2) with
          | none =>
            have hs : (updateByHandler kf m).shouldHandleData
                (buildRow headers (parseCsvLine line)) = false := by
              simp only [updateByHandler, hg, hf]
              rfl
            have hspec : updateBySpecRow headers kf m line = parseCsvLine line := by
              simp only [updateBySpecRow, hg, hf]
            simp only [hs, Bool.false_eq_true, if_false, hspec, ih]
          | some repl =>
            have hs : (updateByHandler kf m).shouldHandleData
                (buildRow headers (parseCsvLine line)) = true := by
              simp only [updateByHandler, hg, hf]
              rfl
            have hhd : (updateByHandler kf m).handleData
                (buildRow headers (parseCsvLine line)) = some repl := by
              simp only [updateByHandler, hg, hf]
            have hspec : updateBySpecRow headers kf m line =
                prepareRecord headers repl := by
              simp only [updateBySpecRow, hg, hf]
            simp only [hs, if_true, hhd, hspec, ih]
            simp
  exact ⟨hmain, by rw [hmain, List.length_map]⟩

/-- C6: with a filter, ascending sort field `F`, offset `k` and limit `m`, the
query executor returns exactly the ranks `[k, k + m)` of the filtered-then-
sorted row sequence: the slice has length `min m (N - k)` over the `N`
surviving rows, its `i`-th element is the sorted sequence's `(k + i)`-th, and
it is empty when `k ≥ N`; a negative offset or limit argument is rejected by
the builder with the corresponding ValidationError before any fetch. -/
theorem c6_pagination (csv : String) (preds : List (Obj → Bool)) (F : String)
    (k m : Nat) :
    (csvFetch
        { shouldHandleData := filterTest preds, lineOffset := k,
          lineLimit := some m, orderField := some F } csv =
      Except.ok
        (((jsSort (fun a b => decide (sortComparator false F a b ≤ 0))
            ((tableRows csv).filter (filterTest preds))).drop k).take m)) ∧
    (((jsSort (fun a b => decide (sortComparator false F a b ≤ 0))
        ((tableRows csv).filter (filterTest preds))).drop k).take m).length =
      min m ((jsSort (fun a b => decide (sortComparator false F a b ≤ 0))
        ((tableRows csv).filter (filterTest preds))).length - k) ∧
    (∀ i, i < m →
      ((((jsSort (fun a b => decide (sortComparator false F a b ≤ 0))
          ((tableRows csv).filter (filterTest preds))).drop k).take m)[i]? =
        (jsSort (fun a b => decide (sortComparator false F a b ≤ 0))
          ((tableRows csv).filter (filterTest preds)))[k + i]?)) ∧
    (k ≥ (jsSort (fun a b => decide (sortComparator false F a b ≤ 0))
        ((tableRows csv).filter (filterTest preds))).length →
      ((jsSort (fun a b => decide (sortComparator false F a b ≤ 0))
        ((tableRows csv).filter (filterTest preds))).drop k).take m = []) ∧
    (∀ o : Int, o < 0 → selectOffset o = Except.error "Offset cannot be negative") ∧
    (∀ l : Int, l < 0 → selectLimit l = Except.error "Limit cannot be negative") := by
  obtain ⟨hd, tl, heq⟩ := List.exists_cons_of_ne_nil (splitLines_ne_nil csv)
  have hrows : tableRows csv =
      (tl.filter (fun l => !isBlank l)).map
        (fun l => buildRow (parseCsvLine hd) (parseCsvLine l)) := by
    rw [tableRows, csvHeaders, heq]
    rfl
  refine ⟨?_, ?_, ?_, ?_, ?_, ?_⟩
  · rw [csvFetch.eq_def, heq]
    simp only [hrows, jsSlice, Option.map_some']
    rw [List.drop_take]
    simp [Nat.add_sub_cancel_left]
  · rw [List.length_take, List.length_drop]
  · intro i hi
    rw [List.getElem?_take, if_pos hi, List.getElem?_drop]
  · intro hk
    rw [List.drop_eq_nil_of_le hk, List.take_nil]
  · intro o ho
    rw [selectOffset, if_pos ho]
  · intro l hl
    rw [selectLimit, if_pos hl]

lemma replaceBsl_eq_self (t : Char) (ht : t = '"' ∨ t = ',') :
    ∀ l : List Char, noBslEsc l = true → replaceBsl t l = l := by
  intro l
  induction l with
  | nil => intro _; rfl
  | cons c1 rest ih =>
    intro hl
    cases rest with
    | nil => rfl
    | cons c2 rest2 =>
      rw [noBslEsc] at hl
      rw [Bool.and_eq_true] at hl
      have h2 : noBslEsc (c2 :: rest2) = true := hl.2
      rw [replaceBsl, if_neg, ih h2]
      intro hcontra
      rw [Bool.and_eq_true] at hcontra
      have hc1 : c1 = '\\' := by simpa using hcontra.1
      have hc2t : c2 = t := by simpa using hcontra.2
      have hc2 : (decide (c2 = '"') || decide (c2 = ',')) = true := by
        rcases ht with h | h <;> simp [hc2t, h]
      rw [hc1] at hl
      simp [hc2] at hl

lemma noBslEsc_of_no_bsl :
    ∀ l : List Char, '\\' ∉ l → noBslEsc l = true := by
  intro l
  induction l with
  | nil => intro _; rfl
  | cons c1 rest ih =>
    intro hl
    cases rest with
    | nil => rfl
    | cons c2 rest2 =>
      rw [noBslEsc, Bool.and_eq_true]
      constructor
      · have : c1 ≠ '\\' := fun h => hl (h ▸ List.mem_cons_self c1 _)
        simp [this]
      · exact ih fun h => hl (List.mem_cons_of_mem _ h)

lemma unescapeField_eq_self (v : String) (hesc : noBslEsc v.toList = true) :
    unescapeField v = v := by
  rw [unescapeField, replaceBsl_eq_self '"' (Or.inl rfl) v.toList hesc,
    replaceBsl_eq_self ',' (Or.inr rfl) v.toList hesc]
  rfl

lemma parse_quoted (w : List Char) :
    ∀ (acc tail : List Char), tail.head? ≠ some '"' →
      parseCsvLineAux true acc (doubleQuotes w ++ '"' :: tail) =
        parseCsvLineAux false (acc ++ w) tail := by
  induction w with
  | nil =>
    intro acc tail htail
    cases tail with
    | nil => simp [doubleQuotes, parseCsvLineAux]
    | cons t ts =>
      have ht : ¬(t = '"') := fun h => htail (by rw [h]; rfl)
      simp [doubleQuotes, parseCsvLineAux, ht]
  | cons c w' ih =>
    intro acc tail htail
    by_cases hc : c = '"'
    · subst hc
      have hshape : doubleQuotes ('"' :: w') ++ '"' :: tail =
          '"' :: '"' :: (doubleQuotes w' ++ '"' :: tail) := by
        simp [doubleQuotes]
      rw [hshape, parseCsvLineAux]
      simp only [if_pos rfl]
      rw [ih (acc ++ ['"']) tail htail]
      simp
    · have hshape : doubleQuotes (c :: w') ++ '"' :: tail =
          c :: (doubleQuotes w' ++ '"' :: tail) := by
        simp [doubleQuotes, hc]
      rw [hshape, parseCsvLineAux.eq_def]
      simp only [hc, if_false]
      rw [ih (acc ++ [c]) tail htail]
      simp

lemma parse_unquoted (v : List Char) (hv : ∀ c ∈ v, ¬(c = '"') ∧ ¬(c = ',')) :
    ∀ acc tail, parseCsvLineAux false acc (v ++ tail) =
      parseCsvLineAux false (acc ++ v) tail := by
  induction v with
  | nil => intro acc tail; simp
  | cons c v' ih =>
    intro acc tail
    have hc := hv c (List.mem_cons_self c v')
    show parseCsvLineAux false acc (c :: (v' ++ tail)) = _
    rw [parseCsvLineAux.eq_def]
    simp only [hc.1, hc.2, if_false]
    rw [ih (fun d hd => hv d (List.mem_cons_of_mem _ hd)) (acc ++ [c]) tail]
    simp

lemma parse_escaped_field (v : String) :
    ∀ acc tail, tail.head? ≠ some '"' →
      parseCsvLineAux false acc ((escapeCsvField v).toList ++ tail) =
        parseCsvLineAux false (acc ++ v.toList) tail := by
  intro acc tail htail
  by_cases hsp : v.toList.any (fun c => c = ',' || c = '"' || c = '\n')
  · rw [escapeCsvField, if_pos hsp]
    have hshape : (String.mk ('"' :: doubleQuotes v.toList ++ ['"'])).toList ++ tail =
        '"' :: (doubleQuotes v.toList ++ '"' :: tail) := by
      simp
    rw [hshape, parseCsvLineAux.eq_def]
    simp only [if_pos rfl]
    exact parse_quoted v.toList acc tail htail
  · rw [escapeCsvField, if_neg hsp]
    refine parse_unquoted v.toList ?_ acc tail
    intro c hc
    rw [List.any_eq_true] at hsp
    push_neg at hsp
    have := hsp c hc
    constructor
    · intro h
      rw [h] at this
      simp at this
    · intro h
      rw [h] at this
      simp at this

lemma parse_renderLine_aux (vs : List String) (hvs : vs ≠ []) :
    parseCsvLineAux false [] (renderLine vs).toList = vs.map String.toList := by
  induction vs with
  | nil => exact absurd rfl hvs
  | cons v rest ih =>
    cases rest with
    | nil =>
      have hshape : (renderLine [v]).toList = (escapeCsvField v).toList ++ [] := by
        simp [renderLine, joinSep]
      rw [hshape, parse_escaped_field v [] [] (by simp)]
      simp [parseCsvLineAux]
    | cons v2 rest2 =>
      have hshape : (renderLine (v :: v2 :: rest2)).toList =
          (escapeCsvField v).toList ++ (',' :: (renderLine (v2 :: rest2)).toList) := by
      
        simp [renderLine, joinSep, List.map_cons]
      rw [hshape, parse_escaped_field v [] (',' :: (renderLine (v2 :: rest2)).toList)
        (by simp)]
      rw [parseCsvLineAux.eq_def]
      simp only [List.nil_append]
      norm_num
      have hih := ih (by simp)
      simp only [String.toList] at hih
      rw [hih]
      simp [String.toList]

lemma parse_line_roundtrip (vs : List String) (hne : vs ≠ [])
    (hesc : ∀ v ∈ vs, noBslEsc v.toList = true) :
    parseCsvLine (renderLine vs) = vs := by
  rw [parseCsvLine, parse_renderLine_aux vs hne, List.map_map]
  rw [List.map_congr_left, List.map_id]
  intro v hv
  have : String.mk v.toList = v := rfl
  simp only [Function.comp]
  rw [this, unescapeField_eq_self v (hesc v hv)]
  rfl

lemma splitOnCharAux_no_sep (sep : Char) :
    ∀ l : List Char, sep ∉ l → splitOnCharAux sep l = [l] := by
  intro l
  induction l with
  | nil => intro _; rfl
  | cons c rest ih =>
    intro hl
    have hc : ¬(c = sep) := fun h => hl (h ▸ List.mem_cons_self c rest)
    rw [splitOnCharAux, ih (fun h => hl (List.mem_cons_of_mem _ h))]
    simp [hc]

lemma splitOnCharAux_append (sep : Char) :
    ∀ lp : List Char, sep ∉ lp → ∀ ls : List Char,
      splitOnCharAux sep (lp ++ sep :: ls) = lp :: splitOnCharAux sep ls := by
  intro lp
  induction lp with
  | nil =>
    intro _ ls
    rw [List.nil_append, splitOnCharAux]
    obtain ⟨h, t, hsplit⟩ := List.exists_cons_of_ne_nil (splitOnCharAux_ne_nil sep ls)
    rw [hsplit]
    simp
  | cons c lp' ih =>
    intro hlp ls
    have hc : ¬(c = sep) := fun h => hlp (h ▸ List.mem_cons_self c lp')
    have hrec := ih (fun h => hlp (List.mem_cons_of_mem _ h)) ls
    rw [List.cons_append, splitOnCharAux, hrec]
    simp [hc]

lemma splitLines_joinSep (parts : List String) (hne : parts ≠ [])
    (hnl : ∀ p ∈ parts, '\n' ∉ p.toList) :
    splitLines (joinSep "\n" parts) = parts := by
  induction parts with
  | nil => exact absurd rfl hne
  | cons p rest ih =>
    cases rest with
    | nil =>
      rw [joinSep, splitLines, splitOnChar,
        splitOnCharAux_no_sep '\n' p.toList (hnl p (List.mem_cons_self p []))]
      rfl
    | cons q rest2 =>
      have hshape : (joinSep "\n" (p :: q :: rest2)).toList =
          p.toList ++ '\n' :: (joinSep "\n" (q :: rest2)).toList := by
        rw [joinSep]
        simp
      rw [splitLines, splitOnChar, hshape,
        splitOnCharAux_append '\n' p.toList (hnl p (List.mem_cons_self p _))]
      have hihres := ih (by simp) (fun w hw => hnl w (List.mem_cons_of_mem _ hw))
      rw [splitLines, splitOnChar] at hihres
      simp only [List.map_cons]
      rw [hihres]
      rfl

lemma mem_doubleQuotes (c : Char) :
    ∀ l : List Char, c ∈ doubleQuotes l → c = '"' ∨ c ∈ l := by
  intro l
  induction l with
  | nil => intro h; simp [doubleQuotes] at h
  | cons d rest ih =>
    intro h
    rw [doubleQuotes] at h
    by_cases hd : d = '"'
    · rw [if_pos hd] at h
      rcases List.mem_cons.mp h with h1 | h2
      · exact Or.inl h1
      · rcases List.mem_cons.mp h2 with h3 | h4
        · exact Or.inl h3
        · rcases ih h4 with h5 | h6
          · exact Or.inl h5
          · exact Or.inr (List.mem_cons_of_mem _ h6)
    · rw [if_neg hd] at h
      rcases List.mem_cons.mp h with h1 | h2
      · exact Or.inr (h1 ▸ List.mem_cons_self d rest)
      · rcases ih h2 with h3 | h4
        · exact Or.inl h3
        · exact Or.inr (List.mem_cons_of_mem _ h4)

lemma escapeCsvField_no_newline (v : String) (hv : '\n' ∉ v.toList) :
    '\n' ∉ (escapeCsvField v).toList := by
  rw [escapeCsvField]
  by_cases hsp : v.toList.any (fun c => c = ',' || c = '"' || c = '\n')
  · rw [if_pos hsp]
    intro h
    simp only [String.toList] at h
    rcases List.mem_cons.mp h with h1 | h2
    · exact absurd h1 (by decide)
    · rcases List.mem_append.mp h2 with h3 | h4
      · rcases mem_doubleQuotes '\n' v.toList h3 with h5 | h6
        · exact absurd h5 (by decide)
        · exact hv h6
      · simp at h4
  · rw [if_neg hsp]
    exact hv

lemma renderLine_no_newline (r : List String) (hr : ∀ v ∈ r, '\n' ∉ v.toList) :
    '\n' ∉ (renderLine r).toList := by
  rw [renderLine]
  induction r with
  | nil => simp [joinSep]
  | cons v rest ih =>
    cases rest with
    | nil =>
      simp only [List.map_cons, List.map_nil, joinSep]
      exact escapeCsvField_no_newline v (hr v (List.mem_cons_self v []))
    | cons v2 rest2 =>
      simp only [List.map_cons, joinSep]
      intro h
      simp only [String.toList] at h
      rcases List.mem_append.mp h with h1 | h2
      · rcases List.mem_append.mp h1 with h3 | h4
        · exact escapeCsvField_no_newline v (hr v (List.mem_cons_self v _))
            (by simpa [String.toList] using h3)
        · simp at h4
      · have := ih (fun w hw => hr w (List.mem_cons_of_mem _ hw))
        simp only [List.map_cons, String.toList] at this
        exact this h2

lemma objSet_fresh (row : Obj) (k : String) (hk : ∀ p ∈ row, p.1 ≠ k)
    (v : String) : objSet row k v = row ++ [(k, v)] := by
  rw [objSet, if_neg]
  rw [List.any_eq_true]
  push_neg
  intro p hp
  simp [hk p hp]

lemma buildRowAux_zip (hs : List String) :
    ∀ (vs : List String) (row : Obj), hs.Nodup →
      (∀ x ∈ hs, ∀ p ∈ row, p.1 ≠ x) → vs.length = hs.length →
      buildRowAux row hs vs = row ++ hs.zip vs := by
  induction hs with
  | nil =>
    intro vs row _ _ _
    simp [buildRowAux]
  | cons h hs' ih =>
    intro vs row hnodup hfresh hlen
    cases vs with
    | nil => simp at hlen
    | cons v vs' =>
      rw [buildRowAux]
      simp only [List.headD_cons, List.tail_cons]
      rw [objSet_fresh row h (hfresh h (List.mem_cons_self h hs')) v]
      rw [ih vs' (row ++ [(h, v)]) (List.nodup_cons.mp hnodup).2 ?_ ?_]
      · simp
      · intro x hx p hp
        rcases List.mem_append.mp hp with h1 | h2
        · exact hfresh x (List.mem_cons_of_mem _ hx) p h1
        · rw [List.mem_singleton.mp h2]
          intro hcontra
          have hhx : h ∈ hs' := by
            have : h = x := hcontra
            rw [this]
            exact hx
          exact (List.nodup_cons.mp hnodup).1 hhx
      · simpa using hlen

lemma buildRow_zip (hs vs : List String) (hnodup : hs.Nodup)
    (hlen : vs.length = hs.length) : buildRow hs vs = hs.zip vs := by
  rw [buildRow, buildRowAux_zip hs vs [] hnodup (by simp) hlen]
  rfl

/-- C1, amended: the canonical encoding round-trips through the decoder for
every table whose header names are plain (non-empty header list, no duplicate
names, no comma/quote/newline/backslash in a name) and whose record values
contain no newline and no backslash-escape digraph, each record carrying one
value per header field and rendering to a non-blank line: decoding then yields
exactly the original records as field-name/value rows.  (The newline,
backslash and blank-line exclusions are forced by the counterexample: the
decoder splits on `\n` before unquoting, un-escapes `\"`/`\,`, and skips
blank lines.) -/
theorem c1_roundtrip_plain (headers : List String) (records : List (List String))
    (hne : headers ≠ []) (hnodup : headers.Nodup)
    (hplain : ∀ h ∈ headers, ∀ c ∈ h.toList,
      ¬(c = ',') ∧ ¬(c = '"') ∧ ¬(c = '\n') ∧ ¬(c = '\\'))
    (hlen : ∀ r ∈ records, r.length = headers.length)
    (hnl : ∀ r ∈ records, ∀ v ∈ r, '\n' ∉ v.toList)
    (hesc : ∀ r ∈ records, ∀ v ∈ r, noBslEsc v.toList = true)
    (hnb : ∀ r ∈ records, isBlank (renderLine r) = false) :
    csvFetch passHandler (encodeCsv headers records) =
      Except.ok (records.map (fun r => headers.zip r)) := by
  have hescone : ∀ h ∈ headers, escapeCsvField h = h := by
    intro h hh
    rw [escapeCsvField, if_neg]
    rw [List.any_eq_true]
    push_neg
    intro c hc
    have := hplain h hh c hc
    simp [this.1, this.2.1, this.2.2.1]
  have hescid : headers.map escapeCsvField = headers := by
    calc headers.map escapeCsvField = headers.map id := List.map_congr_left hescone
      _ = headers := List.map_id headers
  have hrl : renderLine headers = joinSep "," headers := by
    rw [renderLine, hescid]
  have hhnl : ∀ h ∈ headers, '\n' ∉ h.toList := by
    intro h hh hc
    exact (hplain h hh '\n' hc).2.2.1 rfl
  have hsplit : splitLines (encodeCsv headers records) =
      joinSep "," headers :: records.map renderLine := by
    rw [encodeCsv, splitLines_joinSep]
    · simp
    · intro p hp
      rcases List.mem_cons.mp hp with h1 | h2
      · rw [h1, ← hrl]
        exact renderLine_no_newline headers hhnl
      · obtain ⟨r, hr, hrp⟩ := List.mem_map.mp h2
        rw [← hrp]
        exact renderLine_no_newline r (hnl r hr)
  have hheaders : parseCsvLine (joinSep "," headers) = headers := by
    rw [← hrl]
    refine parse_line_roundtrip headers hne ?_
    intro h hh
    refine noBslEsc_of_no_bsl h.toList ?_
    intro hc
    exact (hplain h hh '\\' hc).2.2.2 rfl
  have hlines : ∀ r ∈ records, parseCsvLine (renderLine r) = r := by
    intro r hr
    refine parse_line_roundtrip r ?_ (hesc r hr)
    intro hcontra
    have h0 := hlen r hr
    rw [hcontra] at h0
    simp at h0
    exact hne (List.eq_nil_of_length_eq_zero h0.symm)
  have hpass : csvFetch passHandler (encodeCsv headers records) =
      Except.ok (((records.map renderLine).filter (fun l => !isBlank l)).map
        (fun l => buildRow (parseCsvLine (joinSep "," headers)) (parseCsvLine l))) := by
    rw [csvFetch.eq_def, hsplit]
    simp [passHandler, jsSlice]
  rw [hpass]
  congr 1
  have hfilter : (records.map renderLine).filter (fun l => !isBlank l) =
      records.map renderLine := by
    rw [List.filter_eq_self]
    intro l hl
    obtain ⟨r, hr, hrl2⟩ := List.mem_map.mp hl
    rw [← hrl2, hnb r hr]
    rfl
  rw [hfilter, List.map_map]
  rw [List.map_congr_left]
  intro r hr
  simp only [Function.comp]
  rw [hlines r hr, hheaders, buildRow_zip headers r hnodup (hlen r hr)]

/-- C1 fails as stated: a field value containing a newline is quoted by the
encoder, but the decoder splits the body on `\n` BEFORE parsing quotes, so the
record `{h: "a\nb"}` comes back as the two records `{h: "a"}` and `{h: "b"}`
instead of the original single record. -/
theorem c1_roundtrip_counterexample :
    encodeCsv ["h"] [["a\nb"]] = "h\n\"a\nb\"" ∧
    csvFetch passHandler (encodeCsv ["h"] [["a\nb"]]) =
      Except.ok [[("h", "a")], [("h", "b")]] ∧
    ([["a\nb"]].map (fun r => List.zip ["h"] r) = [[("h", "a\nb")]] ∧
      ([[("h", "a")], [("h", "b")]] : List Obj) ≠ [[("h", "a\nb")]]) := by
  exact ⟨rfl, rfl, by decide, by decide⟩

theorem c1_roundtrip_plain_witness :
    csvFetch passHandler (encodeCsv ["domain", "cookies"] [["a.com", "x,\"y"]]) =
      Except.ok [[("domain", "a.com"), ("cookies", "x,\"y")]] := by
  have h := c1_roundtrip_plain ["domain", "cookies"] [["a.com", "x,\"y"]]
    (by decide) (by decide) (by decide) (by decide) (by decide) (by decide)
    (by decide)
  rw [h]
  rfl
